import Mathlib

/-!
Verification of the mrtrix-rish harmonization pipeline.

Shallow embedding of the Python sources under `src/`:
voxel images become functions `ι → ℚ` over an abstract voxel type `ι`,
a 4-D SH image becomes a list of volumes along the SH-coefficient axis,
Python dictionaries keyed by SH order become `Nat → Option _` maps or
association lists, and fallible code returns `Except String _` with the
error messages of the corresponding Python exceptions.

Shelled-out calls to the external imaging toolkit (mrconvert, mrcalc,
mrcat, mrmath) are modelled through the primitives the specification
assigns to the external interface: slicing a half-open range along the
last axis, voxelwise multiply, concatenation along the last axis, and
the voxelwise mean across images.
-/

namespace MrtrixRish

/-- A 3-D scalar volume over an abstract voxel grid `ι`. -/
abbrev Volume (ι : Type) := ι → ℚ

/-- A 4-D SH image: the list of scalar volumes along the SH-coefficient axis. -/
abbrev SHImage (ι : Type) := List (Volume ι)

/-- Modelled from the spec: the accumulated start index of the k-th even SH
order (order `2*k`).  `get_sh_indices` lives in `src/core/rish_features.py`,
which is not part of the sources; per spec section 4.1 the mapping sends even
orders to consecutive half-open ranges of length `2*l+1`, so the start of
order `2*k` accumulates the preceding range lengths `2*(2*j)+1` for `j < k`. -/
def orderStart : Nat → Nat
  | 0 => 0
  | k + 1 => orderStart k + (2 * (2 * k) + 1)

/-- Number of SH coefficients of order `l`, namely `2*l+1`. -/
def nCoeffs (l : Nat) : Nat := 2 * l + 1

/-- Total number of volumes of an SH image of maximum order `lmax`. -/
def n_volumes (lmax : Nat) : Nat := orderStart (lmax / 2 + 1)

/-- The even SH orders `0, 2, ..., lmax` in ascending order. -/
def evenOrders (lmax : Nat) : List Nat := (List.range (lmax / 2 + 1)).map (fun k => 2 * k)

/-- Start of the coefficient block of an even order `l` along the SH axis. -/
def order_start (l : Nat) : Nat := orderStart (l / 2)

/-- Modelled from the spec: the `SHInfo` record returned by `get_sh_indices`
in the missing module `src/core/rish_features.py`; field names follow the
unit tests in `tests/unit/test_rish_features.py`.  `volume_indices` lists
`(l, start, end)` for even `l` in ascending order. -/
structure SHInfo where
  lmax : Nat
  volume_indices : List (Nat × Nat × Nat)
  n_volumes : Nat
  n_coeffs_per_order : List (Nat × Nat)
deriving Repr, DecidableEq

/-- Modelled from the spec: `get_sh_indices(lmax)` from the missing module
`src/core/rish_features.py`.  Per spec section 4.1 it maps every even order
`l` in `0..lmax` to a half-open index range of length `2*l+1`, the ranges
being consecutive in ascending order, and fails for an odd `lmax` (the unit
tests expect a ValueError whose message contains "must be even"; a negative
`lmax` is not representable in the `Nat` embedding). -/
def get_sh_indices (lmax : Nat) : Except String SHInfo :=
  if lmax % 2 ≠ 0 then .error "lmax must be even"
  else .ok
    { lmax := lmax
      volume_indices := (List.range (lmax / 2 + 1)).map
        (fun k => (2 * k, orderStart k, orderStart k + nCoeffs (2 * k)))
      n_volumes := n_volumes lmax
      n_coeffs_per_order := (List.range (lmax / 2 + 1)).map
        (fun k => (2 * k, nCoeffs (2 * k))) }

/-- The external-toolkit slice primitive behind
`mrconvert -coord 3 start:end`: extract the half-open range
`[start, end)` of volumes along the SH axis (spec section 6 names
"the ability to slice a half-open range along the last axis" as the
contract with the external toolkit); out-of-range slicing is a toolkit
error. -/
def mrconvertSlice (img : SHImage ι) (start stop : Nat) : Except String (SHImage ι) :=
  if stop ≤ img.length then .ok ((img.drop start).take (stop - start))
  else .error "mrconvert: volume range out of bounds"

/-- The external-toolkit voxelwise multiply behind `mrcalc img scale -mult`,
broadcast across the volumes of `img`. -/
def mrcalcMult (img : SHImage ι) (scale : Volume ι) : SHImage ι :=
  img.map (fun vol => fun v => vol v * scale v)

/-- One iteration of the per-order loop of `harmonize_sh`
(`src/core/harmonize.py`, lines 67-91): check the scale map for the order,
extract the coefficient block and multiply it by the scale map. -/
def harmonizeStep (sh_image : SHImage ι) (scale_maps : Nat → Option (Volume ι))
    (lse : Nat × Nat × Nat) : Except String (SHImage ι) :=
  match scale_maps lse.1 with
  | none => .error ("No scale map for order " ++ toString lse.1)
  | some sm => do
      let extracted ← mrconvertSlice sh_image lse.2.1 lse.2.2
      pure (mrcalcMult extracted sm)

/-- `harmonize_sh` (`src/core/harmonize.py`, lines 22-101): for each even
order of `get_sh_indices lmax`, in ascending order, fail if the order has no
scale map, otherwise slice its coefficient block and multiply every
coefficient by the scale map; concatenate the scaled blocks along the SH
axis (`mrcat -axis 3`).  `lmax` is the explicit `lmax` argument of the
Python function (when it is `None` the code infers it from the image via
`get_image_lmax` from the missing module `rish_features.py`). -/
def harmonize_sh (sh_image : SHImage ι) (scale_maps : Nat → Option (Volume ι))
    (lmax : Nat) : Except String (SHImage ι) := do
  let sh_info ← get_sh_indices lmax
  let scaled_parts ← sh_info.volume_indices.mapM (harmonizeStep sh_image scale_maps)
  pure scaled_parts.flatten

/-! ### Arithmetic facts about the SH index layout -/

theorem orderStart_add_self (k : Nat) : orderStart k + k = 2 * k * k := by
  induction k with
  | zero => rfl
  | succ n ih =>
    simp only [orderStart]
    nlinarith [ih]

theorem orderStart_strictMono : StrictMono orderStart :=
  strictMono_nat_of_lt_succ (fun n => by simp [orderStart])

theorem orderStart_succ (k : Nat) : orderStart (k + 1) = orderStart k + nCoeffs (2 * k) := rfl

theorem n_volumes_eq (lmax : Nat) (h : lmax % 2 = 0) :
    n_volumes lmax = (lmax + 1) * (lmax + 2) / 2 := by
  obtain ⟨k, rfl⟩ : ∃ k, lmax = 2 * k := ⟨lmax / 2, by omega⟩
  have h1 : 2 * k / 2 + 1 = k + 1 := by omega
  have h2 := orderStart_add_self (k + 1)
  have h3 : (2 * k + 1) * (2 * k + 2) = 2 * ((2 * k + 1) * (k + 1)) := by ring
  unfold n_volumes
  rw [h1, h3, Nat.mul_div_cancel_left _ (by norm_num)]
  nlinarith [h2]

/-! ### Tiling of the SH axis by the per-order slices -/

theorem flatten_slices_take {α : Type} (xs : List α) :
    ∀ n, orderStart n ≤ xs.length →
      ((List.range n).map (fun k => (xs.drop (orderStart k)).take (nCoeffs (2 * k)))).flatten
        = xs.take (orderStart n) := by
  intro n
  induction n with
  | zero => intro _; simp [orderStart]
  | succ m ih =>
    intro h
    have hm : orderStart m ≤ xs.length :=
      le_trans (le_of_lt (orderStart_strictMono (Nat.lt_succ_self m))) h
    rw [List.range_succ, List.map_append, List.flatten_append, ih hm]
    simp only [List.map_cons, List.map_nil, List.flatten_cons, List.flatten_nil, List.append_nil]
    rw [orderStart_succ, List.take_add]

/-! ### Evaluation of `List.mapM` over `Except` -/

theorem mapM_ok_of_forall {α β ε : Type} {f : α → Except ε β} {g : α → β} :
    ∀ (l : List α), (∀ x ∈ l, f x = .ok (g x)) → l.mapM f = .ok (l.map g) := by
  intro l
  induction l with
  | nil => intro _; rfl
  | cons a t ih =>
    intro h
    rw [List.mapM_cons, h a (List.mem_cons_self a t),
      ih (fun x hx => h x (List.mem_cons_of_mem a hx))]
    rfl

theorem mapM_error_of_exists {α β ε : Type} {f : α → Except ε β} (bad : α → Prop)
    (msg : α → ε) :
    ∀ (l : List α), (∀ x ∈ l, bad x → f x = .error (msg x)) →
      (∀ x ∈ l, ¬ bad x → ∃ b, f x = .ok b) →
      (∃ x ∈ l, bad x) →
      ∃ x, x ∈ l ∧ bad x ∧ l.mapM f = .error (msg x) := by
  intro l
  induction l with
  | nil => intro _ _ hex; exact absurd hex (by simp)
  | cons a t ih =>
    intro hbad hgood hex
    by_cases ha : bad a
    · refine ⟨a, List.mem_cons_self a t, ha, ?_⟩
      rw [List.mapM_cons, hbad a (List.mem_cons_self a t) ha]
      rfl
    · obtain ⟨b, hb⟩ := hgood a (List.mem_cons_self a t) ha
      obtain ⟨x, hx, hbx⟩ : ∃ x ∈ t, bad x := by
        rcases hex with ⟨x, hx, hbx⟩
        rcases List.mem_cons.mp hx with rfl | hx
        · exact absurd hbx ha
        · exact ⟨x, hx, hbx⟩
      obtain ⟨y, hy, hby, herr⟩ := ih
        (fun x hx => hbad x (List.mem_cons_of_mem a hx))
        (fun x hx => hgood x (List.mem_cons_of_mem a hx)) ⟨x, hx, hbx⟩
      refine ⟨y, List.mem_cons_of_mem a hy, hby, ?_⟩
      rw [List.mapM_cons, hb, herr]
      rfl

/-! ### Block structure of a concatenation of per-order parts -/

theorem flatten_parts_length {α : Type} (g : Nat → List α) :
    ∀ n, (∀ k, k < n → (g k).length = nCoeffs (2 * k)) →
      (((List.range n).map g).flatten).length = orderStart n := by
  intro n
  induction n with
  | zero => intro _; simp [orderStart]
  | succ m ih =>
    intro hg
    rw [List.range_succ, List.map_append, List.flatten_append, List.length_append,
      ih (fun k hk => hg k (by omega))]
    simp [hg m (by omega), orderStart_succ]

theorem flatten_parts_block {α : Type} (g : Nat → List α) :
    ∀ n, (∀ k, k < n → (g k).length = nCoeffs (2 * k)) → ∀ k, k < n →
      ((((List.range n).map g).flatten.drop (orderStart k)).take (nCoeffs (2 * k))) = g k := by
  intro n
  induction n with
  | zero => intro _ k hk; exact absurd hk (by omega)
  | succ m ih =>
    intro hg k hk
    rw [List.range_succ, List.map_append, List.flatten_append]
    simp only [List.map_cons, List.map_nil, List.flatten_cons, List.flatten_nil,
      List.append_nil]
    rcases Nat.lt_or_ge k m with hkm | hkm
    · have hlen : (((List.range m).map g).flatten).length = orderStart m :=
        flatten_parts_length g m (fun j hj => hg j (by omega))
      have hks : orderStart k + nCoeffs (2 * k) ≤ orderStart m := by
        rw [← orderStart_succ]
        exact orderStart_strictMono.monotone hkm
      rw [List.drop_append_of_le_length (by omega),
        List.take_append_of_le_length (by simp [hlen]; omega)]
      exact ih (fun j hj => hg j (by omega)) k hkm
    · have hk' : k = m := by omega
      subst hk'
      have hlen : (((List.range k).map g).flatten).length = orderStart k :=
        flatten_parts_length g k (fun j hj => hg j (by omega))
      rw [← hlen, List.drop_left]
      exact List.take_of_length_le (by rw [hg k (by omega)])

/-! ### Evaluation of `harmonize_sh` -/

theorem volume_indices_bound {lmax k : Nat} (hk : k < lmax / 2 + 1) (img_len : Nat)
    (hlen : img_len = n_volumes lmax) :
    orderStart k + nCoeffs (2 * k) ≤ img_len := by
  rw [hlen, ← orderStart_succ]
  exact orderStart_strictMono.monotone (by omega)

theorem harmonizeStep_ok {ι : Type} (sh_image : SHImage ι)
    (scale_maps : Nat → Option (Volume ι)) (k : Nat) (sm : Volume ι)
    (hsm : scale_maps (2 * k) = some sm)
    (hbound : orderStart k + nCoeffs (2 * k) ≤ sh_image.length) :
    harmonizeStep sh_image scale_maps (2 * k, orderStart k, orderStart k + nCoeffs (2 * k)) =
      .ok (mrcalcMult ((sh_image.drop (orderStart k)).take (nCoeffs (2 * k))) sm) := by
  simp only [harmonizeStep, hsm, mrconvertSlice, if_pos hbound]
  simp

theorem exceptBind_ok {ε α β : Type} (a : α) (f : α → Except ε β) :
    (Except.ok a : Except ε α) >>= f = f a := rfl

theorem harmonize_sh_ok {ι : Type} (sh_image : SHImage ι)
    (scale_maps : Nat → Option (Volume ι)) (lmax : Nat) (sm : Nat → Volume ι)
    (hl : lmax % 2 = 0) (hlen : sh_image.length = n_volumes lmax)
    (hs : ∀ l, l % 2 = 0 → l ≤ lmax → scale_maps l = some (sm l)) :
    harmonize_sh sh_image scale_maps lmax =
      .ok (((List.range (lmax / 2 + 1)).map
        (fun k => mrcalcMult ((sh_image.drop (orderStart k)).take (nCoeffs (2 * k)))
          (sm (2 * k)))).flatten) := by
  have hinfo : get_sh_indices lmax = .ok
      { lmax := lmax
        volume_indices := (List.range (lmax / 2 + 1)).map
          (fun k => (2 * k, orderStart k, orderStart k + nCoeffs (2 * k)))
        n_volumes := n_volumes lmax
        n_coeffs_per_order := (List.range (lmax / 2 + 1)).map
          (fun k => (2 * k, nCoeffs (2 * k))) } := by
    simp [get_sh_indices, hl]
  have hmap : ((List.range (lmax / 2 + 1)).map
        (fun k => (2 * k, orderStart k, orderStart k + nCoeffs (2 * k)))).mapM
        (harmonizeStep sh_image scale_maps) =
      .ok (((List.range (lmax / 2 + 1)).map
        (fun k => (2 * k, orderStart k, orderStart k + nCoeffs (2 * k)))).map
        (fun lse => mrcalcMult ((sh_image.drop lse.2.1).take (lse.2.2 - lse.2.1))
          (sm lse.1))) := by
    apply mapM_ok_of_forall
    intro x hx
    obtain ⟨k, hk, rfl⟩ : ∃ k, k < lmax / 2 + 1 ∧
        (2 * k, orderStart k, orderStart k + nCoeffs (2 * k)) = x := by
      simpa [List.mem_map, List.mem_range] using hx
    have h2k : scale_maps (2 * k) = some (sm (2 * k)) :=
      hs (2 * k) (by omega) (by omega)
    have hbound := volume_indices_bound hk sh_image.length hlen
    rw [harmonizeStep_ok sh_image scale_maps k (sm (2 * k)) h2k hbound]
    simp
  have harith : ∀ k : Nat, orderStart k + nCoeffs (2 * k) - orderStart k = nCoeffs (2 * k) :=
    fun k => by omega
  simp only [harmonize_sh, hinfo, exceptBind_ok, hmap, List.map_map, Function.comp_def, harith]
  rfl

theorem exceptBind_error {ε α β : Type} (e : ε) (f : α → Except ε β) :
    (Except.error e : Except ε α) >>= f = .error e := rfl

theorem mem_volume_indices {lmax : Nat} {x : Nat × Nat × Nat}
    (hx : x ∈ (List.range (lmax / 2 + 1)).map
      (fun k => (2 * k, orderStart k, orderStart k + nCoeffs (2 * k)))) :
    ∃ k, k < lmax / 2 + 1 ∧ (2 * k, orderStart k, orderStart k + nCoeffs (2 * k)) = x := by
  simpa [List.mem_map, List.mem_range] using hx

theorem harmonize_sh_error_of_missing {ι : Type} (sh_image : SHImage ι)
    (scale_maps : Nat → Option (Volume ι)) (lmax : Nat)
    (hl : lmax % 2 = 0) (hlen : sh_image.length = n_volumes lmax)
    (hex : ∃ l, l % 2 = 0 ∧ l ≤ lmax ∧ scale_maps l = none) :
    ∃ l, l % 2 = 0 ∧ l ≤ lmax ∧ scale_maps l = none ∧
      harmonize_sh sh_image scale_maps lmax =
        .error ("No scale map for order " ++ toString l) := by
  have hinfo : get_sh_indices lmax = .ok
      { lmax := lmax
        volume_indices := (List.range (lmax / 2 + 1)).map
          (fun k => (2 * k, orderStart k, orderStart k + nCoeffs (2 * k)))
        n_volumes := n_volumes lmax
        n_coeffs_per_order := (List.range (lmax / 2 + 1)).map
          (fun k => (2 * k, nCoeffs (2 * k))) } := by
    simp [get_sh_indices, hl]
  obtain ⟨l₀, hl₀, hle₀, hnone₀⟩ := hex
  have hmem : (2 * (l₀ / 2), orderStart (l₀ / 2),
      orderStart (l₀ / 2) + nCoeffs (2 * (l₀ / 2))) ∈
      (List.range (lmax / 2 + 1)).map
        (fun k => (2 * k, orderStart k, orderStart k + nCoeffs (2 * k))) :=
    List.mem_map_of_mem _ (List.mem_range.mpr (by omega))
  have h2l₀ : 2 * (l₀ / 2) = l₀ := by omega
  obtain ⟨x, hxmem, hxbad, herr⟩ :=
    mapM_error_of_exists (f := harmonizeStep sh_image scale_maps)
      (fun lse => scale_maps lse.1 = none)
      (fun lse => "No scale map for order " ++ toString lse.1)
      ((List.range (lmax / 2 + 1)).map
        (fun k => (2 * k, orderStart k, orderStart k + nCoeffs (2 * k))))
      (fun x _ hbad => by simp [harmonizeStep, hbad])
      (fun x hx hgood => by
        obtain ⟨k, hk, rfl⟩ := mem_volume_indices hx
        obtain ⟨sm, hsm⟩ := Option.ne_none_iff_exists'.mp hgood
        exact ⟨_, harmonizeStep_ok sh_image scale_maps k sm hsm
          (volume_indices_bound hk sh_image.length hlen)⟩)
      ⟨_, hmem, by simpa [h2l₀] using hnone₀⟩
  obtain ⟨k, hk, rfl⟩ := mem_volume_indices hxmem
  refine ⟨2 * k, by omega, by omega, hxbad, ?_⟩
  simp only [harmonize_sh, hinfo, exceptBind_ok, herr, exceptBind_error]

/-- C1: for every SH image whose volume count matches an even maximum order
`lmax` and every scale-map dictionary, `harmonize_sh` fails with the
missing-scale `ValueError` (message `No scale map for order l`) whenever some
even order `l ≤ lmax` has no entry in the dictionary, and a successful result
is only possible when every even order `l ≤ lmax` has a scale map, so no
order is silently passed through unscaled. -/
theorem harmonize_sh_missing_scale_fails {ι : Type} (sh_image : SHImage ι)
    (scale_maps : Nat → Option (Volume ι)) (lmax : Nat)
    (hl : lmax % 2 = 0) (hlen : sh_image.length = n_volumes lmax) :
    ((∃ l, l % 2 = 0 ∧ l ≤ lmax ∧ scale_maps l = none) →
      ∃ l, l % 2 = 0 ∧ l ≤ lmax ∧ scale_maps l = none ∧
        harmonize_sh sh_image scale_maps lmax =
          .error ("No scale map for order " ++ toString l)) ∧
    (∀ out, harmonize_sh sh_image scale_maps lmax = .ok out →
      ∀ l, l % 2 = 0 → l ≤ lmax → (scale_maps l).isSome) := by
  constructor
  · exact harmonize_sh_error_of_missing sh_image scale_maps lmax hl hlen
  · intro out hout l hle hll
    by_contra hnone
    obtain ⟨l', _, _, _, herr⟩ :=
      harmonize_sh_error_of_missing sh_image scale_maps lmax hl hlen
        ⟨l, hle, hll, Option.not_isSome_iff_eq_none.mp hnone⟩
    rw [hout] at herr
    exact Except.noConfusion herr

/-- Witness for C1 at `lmax = 0`, a one-volume image over a single voxel and
an empty scale-map dictionary. -/
theorem harmonize_sh_missing_scale_fails_witness :
    harmonize_sh (ι := Unit) [fun _ => (2 : ℚ)] (fun _ => none) 0 =
      .error ("No scale map for order " ++ toString 0) := by
  obtain ⟨l, h1, h2, _, h4⟩ :=
    (harmonize_sh_missing_scale_fails (ι := Unit) [fun _ => (2 : ℚ)] (fun _ => none) 0
      (by decide) (by decide)).1 ⟨0, by decide, by decide, rfl⟩
  have hl0 : l = 0 := by omega
  subst hl0
  exact h4

/-- C2: rescaling an SH image with scale maps identically 1 for every even
order `l ≤ lmax` returns the input SH image unchanged, voxelwise exact. -/
theorem harmonize_sh_unit_scales_identity {ι : Type} (sh_image : SHImage ι)
    (scale_maps : Nat → Option (Volume ι)) (lmax : Nat)
    (hl : lmax % 2 = 0) (hlen : sh_image.length = n_volumes lmax)
    (hs : ∀ l, l % 2 = 0 → l ≤ lmax → scale_maps l = some (fun _ => (1 : ℚ))) :
    harmonize_sh sh_image scale_maps lmax = .ok sh_image := by
  rw [harmonize_sh_ok sh_image scale_maps lmax (fun _ => fun _ => (1 : ℚ)) hl hlen hs]
  congr 1
  have hmul : ∀ k : Nat,
      mrcalcMult ((sh_image.drop (orderStart k)).take (nCoeffs (2 * k)))
        (fun _ => (1 : ℚ)) =
      (sh_image.drop (orderStart k)).take (nCoeffs (2 * k)) := by
    intro k
    unfold mrcalcMult
    have : ∀ vol : Volume ι, (fun v => vol v * 1) = vol := fun vol => by
      funext v; exact mul_one (vol v)
    simp [this]
  simp only [hmul]
  rw [flatten_slices_take sh_image (lmax / 2 + 1) (by rw [hlen]; exact le_refl _)]
  rw [show orderStart (lmax / 2 + 1) = n_volumes lmax from rfl, ← hlen, List.take_length]

/-- Witness for C2 at `lmax = 0` with a one-volume image over a single voxel
and the all-ones scale map. -/
theorem harmonize_sh_unit_scales_identity_witness :
    harmonize_sh (ι := Unit) [fun _ => (2 : ℚ)] (fun _ => some (fun _ => (1 : ℚ))) 0 =
      .ok [fun _ => (2 : ℚ)] :=
  harmonize_sh_unit_scales_identity [fun _ => (2 : ℚ)] (fun _ => some (fun _ => (1 : ℚ))) 0
    (by decide) (by decide) (fun _ _ _ => rfl)

/-- C3: for a valid SH image with every scale map present, `harmonize_sh`
succeeds; the output keeps the SH-axis length of the input, and for every
even order `l ≤ lmax` the output block of `2*l+1` coefficients starting at
the order's start index is exactly the corresponding input block with every
coefficient multiplied voxelwise by the scale map of order `l` (the blocks
being concatenated in ascending order along the SH axis). -/
theorem harmonize_sh_blockwise_rescale {ι : Type} (sh_image : SHImage ι)
    (scale_maps : Nat → Option (Volume ι)) (lmax : Nat) (sm : Nat → Volume ι)
    (hl : lmax % 2 = 0) (hlen : sh_image.length = n_volumes lmax)
    (hs : ∀ l, l % 2 = 0 → l ≤ lmax → scale_maps l = some (sm l)) :
    ∃ out, harmonize_sh sh_image scale_maps lmax = .ok out ∧
      out = ((List.range (lmax / 2 + 1)).map
        (fun k => mrcalcMult ((sh_image.drop (orderStart k)).take (nCoeffs (2 * k)))
          (sm (2 * k)))).flatten ∧
      out.length = sh_image.length ∧
      ∀ l, l % 2 = 0 → l ≤ lmax →
        (out.drop (order_start l)).take (nCoeffs l) =
          mrcalcMult ((sh_image.drop (order_start l)).take (nCoeffs l)) (sm l) := by
  have hg : ∀ k, k < lmax / 2 + 1 →
      (mrcalcMult ((sh_image.drop (orderStart k)).take (nCoeffs (2 * k)))
        (sm (2 * k))).length = nCoeffs (2 * k) := by
    intro k hk
    have hbound := volume_indices_bound hk sh_image.length hlen
    simp only [mrcalcMult, List.length_map, List.length_take, List.length_drop]
    omega
  refine ⟨_, harmonize_sh_ok sh_image scale_maps lmax sm hl hlen hs, rfl, ?_, ?_⟩
  · rw [flatten_parts_length _ (lmax / 2 + 1) hg, hlen]
    rfl
  · intro l hle hll
    have hk : l / 2 < lmax / 2 + 1 := by omega
    have h2l : 2 * (l / 2) = l := by omega
    have := flatten_parts_block _ (lmax / 2 + 1) hg (l / 2) hk
    rw [h2l] at this
    exact this

/-- Witness for C3 at `lmax = 0` with a one-volume image over a single voxel
and a constant scale map of 3. -/
theorem harmonize_sh_blockwise_rescale_witness :
    (harmonize_sh (ι := Unit) [fun _ => (2 : ℚ)]
      (fun _ => some (fun _ => (3 : ℚ))) 0).isOk = true := by
  obtain ⟨out, hout, -, -, -⟩ :=
    harmonize_sh_blockwise_rescale (ι := Unit) [fun _ => (2 : ℚ)]
      (fun _ => some (fun _ => (3 : ℚ))) 0 (fun _ => fun _ => (3 : ℚ))
      (by decide) (by decide) (fun _ _ _ => rfl)
  rw [hout]
  rfl

/-- C6: for every even `lmax ≥ 0`, `get_sh_indices lmax` succeeds and maps
each even order `l` in `0..lmax` (in ascending order) to a half-open range
of length `2*l+1`; consecutive ranges abut (no gap, no overlap), the first
starts at 0 and the last ends at `n_volumes`, which equals
`(lmax+1)*(lmax+2)/2`; in particular `get_sh_indices 8` yields the ranges
`{0: (0,1), 2: (1,6), 4: (6,15), 6: (15,28), 8: (28,45)}` with
`n_volumes = 45`. -/
theorem get_sh_indices_spec :
    (∀ lmax : Nat, lmax % 2 = 0 →
      ∃ info, get_sh_indices lmax = .ok info ∧
        info.n_volumes = (lmax + 1) * (lmax + 2) / 2 ∧
        info.volume_indices.map (fun x => x.1) = evenOrders lmax ∧
        (∀ x ∈ info.volume_indices, x.2.2 = x.2.1 + (2 * x.1 + 1)) ∧
        info.volume_indices.Chain' (fun a b => a.2.2 = b.2.1) ∧
        info.volume_indices.head?.map (fun x => x.2.1) = some 0 ∧
        info.volume_indices.getLast?.map (fun x => x.2.2) = some info.n_volumes) ∧
    get_sh_indices 8 = .ok
      { lmax := 8
        volume_indices := [(0, 0, 1), (2, 1, 6), (4, 6, 15), (6, 15, 28), (8, 28, 45)]
        n_volumes := 45
        n_coeffs_per_order := [(0, 1), (2, 5), (4, 9), (6, 13), (8, 17)] } := by
  constructor
  · intro lmax hl
    have hinfo : get_sh_indices lmax = .ok
        { lmax := lmax
          volume_indices := (List.range (lmax / 2 + 1)).map
            (fun k => (2 * k, orderStart k, orderStart k + nCoeffs (2 * k)))
          n_volumes := n_volumes lmax
          n_coeffs_per_order := (List.range (lmax / 2 + 1)).map
            (fun k => (2 * k, nCoeffs (2 * k))) } := by
      simp [get_sh_indices, hl]
    refine ⟨_, hinfo, ?_, ?_, ?_, ?_, ?_, ?_⟩
    · exact n_volumes_eq lmax hl
    · simp [evenOrders, List.map_map, Function.comp_def]
    · intro x hx
      obtain ⟨k, _, rfl⟩ := mem_volume_indices hx
      simp [nCoeffs]
    · rw [List.chain'_map]
      rw [List.chain'_range_succ]
      intro m _
      exact (orderStart_succ m).symm
    · rw [List.range_succ_eq_map, List.map_cons, List.head?_cons]
      rfl
    · rw [List.range_succ, List.map_append]
      simp only [List.map_cons, List.map_nil]
      rw [List.getLast?_concat]
      rfl
  · rfl

/-- Witness for C6 at `lmax = 4`. -/
theorem get_sh_indices_spec_witness : (get_sh_indices 4).isOk = true := by
  obtain ⟨info, hinfo, -⟩ := get_sh_indices_spec.1 4 (by decide)
  rw [hinfo]
  rfl

/-! ### RISH extraction and scale maps (callees of `RISHHarmonizer`) -/

variable {ι : Type}

/-- Voxel kept by an optional brain mask (no mask keeps every voxel). -/
def maskKeep (mask : Option (ι → Bool)) (v : ι) : Bool :=
  match mask with
  | none => true
  | some m => m v

/-- The per-order RISH images of an SH image: for each even order `l ≤ lmax`,
slice the coefficients `[start_l, end_l)`, square voxelwise, sum along the
coefficient axis, and zero outside the mask. -/
def rishImage (sh_image : SHImage ι) (lmax : Nat) (mask : Option (ι → Bool)) :
    List (Nat × Volume ι) :=
  (evenOrders lmax).map (fun l =>
    (l, fun v => if maskKeep mask v then
      (((sh_image.drop (order_start l)).take (nCoeffs l)).map (fun vol => vol v * vol v)).sum
    else 0))

/-- Modelled from the spec: `extract_rish_features` lives in
`src/core/rish_features.py`, which is not part of the sources.  Per spec
section 4.2 it computes one per-order energy image per even `l ≤ lmax` and
fails with `InvalidSH` when the input volume count does not match; combined
with the spec section 4.8 state machine and the section 7 `ModelMismatch`
error ("lmax or site set differs from fitted"), extraction at a requested
`lmax` requires the volume count of the image to equal `n_volumes lmax`. -/
def extract_rish_features (sh_image : SHImage ι) (lmax : Nat)
    (mask : Option (ι → Bool)) : Except String (List (Nat × Volume ι)) :=
  if lmax % 2 ≠ 0 then .error "lmax must be even"
  else if sh_image.length ≠ n_volumes lmax then
    .error "Invalid SH image: volume count does not match lmax"
  else .ok (rishImage sh_image lmax mask)

/-- Clip a value to the closed range `[lo, hi]`. -/
def clipTo (clip_range : ℚ × ℚ) (x : ℚ) : ℚ := max clip_range.1 (min clip_range.2 x)

/-- The ε-floor used on scale-map denominators. -/
def epsScale : ℚ := 1 / 1000000

/-- Modelled from the spec: `compute_scale_maps` lives in
`src/core/scale_maps.py`, which is not part of the sources.  Per spec
section 4.6: per order, the per-voxel ratio of reference to target RISH with
an ε-floor on the denominator, Gaussian smoothing (abstracted as the
`smooth` operator supplied by the external toolkit), clipping to
`clip_range`, and zero outside the mask.  An order is present in the result
exactly when both the reference and the target dictionaries contain it. -/
def compute_scale_maps (reference target : List (Nat × Volume ι))
    (smooth : Volume ι → Volume ι) (clip_range : ℚ × ℚ)
    (mask : Option (ι → Bool)) : Nat → Option (Volume ι) :=
  fun l => (reference.lookup l).bind (fun refR =>
    (target.lookup l).map (fun tarR =>
      fun v => if maskKeep mask v then
        clipTo clip_range (smooth (fun w => refR w / max (tarR w) epsScale) v)
      else 0))

/-! ### The `RISHHarmonizer` class (`src/core/harmonize.py`, lines 179-353) -/

/-- State of a `RISHHarmonizer` instance: the constructor arguments plus the
`reference_rish` attribute, which is `None` until `create_template` ran. -/
structure RISHHarmonizer (ι : Type) where
  lmax : Nat
  smoothing_fwhm : ℚ
  clip_range : ℚ × ℚ
  n_threads : Nat
  reference_rish : Option (List (Nat × Volume ι))

/-- The voxelwise mean across a list of images (`mrmath mean`). -/
def meanImages (imgs : List (Volume ι)) : Volume ι :=
  fun v => (imgs.map (fun im => im v)).sum / (imgs.length : ℚ)

/-- Python dictionary access `r[l]` on a per-order RISH dictionary. -/
def dictGet (d : List (Nat × Volume ι)) (l : Nat) : Volume ι :=
  (d.lookup l).getD (fun _ => 0)

/-- The mask picked for subject `i` in `create_template`:
`reference_mask_list[i] if reference_mask_list else None` (an empty Python
list is falsy; indexing past the end is an IndexError). -/
def maskAt (masks : Option (List (Option (ι → Bool)))) (i : Nat) :
    Except String (Option (ι → Bool)) :=
  match masks with
  | none => .ok none
  | some [] => .ok none
  | some ms => if i < ms.length then .ok (ms.getD i none) else
      .error "IndexError: list index out of range"

/-- `RISHHarmonizer.create_template` (`src/core/harmonize.py`, lines
228-286): extract RISH features for each reference subject, then average
them per order (`orders = list(rish_list[0].keys())` raises an IndexError on
an empty subject list) and store the result as `reference_rish`.  The code
performs no minimum-subject-count check. -/
def RISHHarmonizer.create_template (h : RISHHarmonizer ι)
    (reference_sh_list : List (SHImage ι))
    (reference_mask_list : Option (List (Option (ι → Bool)))) :
    Except String (RISHHarmonizer ι) := do
  let rish_list ← reference_sh_list.enum.mapM (fun ise => do
    let mask ← maskAt reference_mask_list ise.1
    extract_rish_features ise.2 h.lmax mask)
  match rish_list with
  | [] => .error "IndexError: list index out of range"
  | r0 :: _ =>
    let orders := r0.map Prod.fst
    pure { h with reference_rish := some (orders.map (fun l =>
      (l, meanImages (rish_list.map (fun r => dictGet r l))))) }

/-- `RISHHarmonizer.harmonize` (`src/core/harmonize.py`, lines 288-353):
guard against the unfit state, extract the target RISH features with the
fitted `lmax`, compute scale maps against the stored reference, and apply
`harmonize_sh`.  The Gaussian smoothing primitive of the external toolkit is
abstracted as the `smooth` operator. -/
def RISHHarmonizer.harmonize (h : RISHHarmonizer ι) (target_sh : SHImage ι)
    (target_mask : Option (ι → Bool)) (smooth : Volume ι → Volume ι) :
    Except String (SHImage ι) := do
  match h.reference_rish with
  | none => .error "Must call create_template() first"
  | some reference_rish => do
      let target_rish ← extract_rish_features target_sh h.lmax target_mask
      let scale_maps := compute_scale_maps reference_rish target_rish smooth
        h.clip_range target_mask
      harmonize_sh target_sh scale_maps h.lmax

/-- C4: calling `harmonize` before `create_template` always fails with the
unfit-state `RuntimeError` and performs no rescaling; and once fitted,
calling `harmonize` on a target SH image whose maximum order differs from
the fitted `lmax` (so its volume count differs from `n_volumes lmax`) is
rejected rather than applied. -/
theorem rish_harmonizer_guards {ι : Type} (h : RISHHarmonizer ι)
    (target : SHImage ι) (mask : Option (ι → Bool)) (smooth : Volume ι → Volume ι) :
    (h.reference_rish = none →
      h.harmonize target mask smooth = .error "Must call create_template() first") ∧
    (∀ r, h.reference_rish = some r → h.lmax % 2 = 0 →
      target.length ≠ n_volumes h.lmax →
      h.harmonize target mask smooth =
        .error "Invalid SH image: volume count does not match lmax") ∧
    (∀ lmax', lmax' % 2 = 0 → h.lmax % 2 = 0 → lmax' ≠ h.lmax →
      n_volumes lmax' ≠ n_volumes h.lmax) := by
  refine ⟨?_, ?_, ?_⟩
  · intro hnone
    simp [RISHHarmonizer.harmonize, hnone]
  · intro r hsome hl hne
    simp [RISHHarmonizer.harmonize, hsome, extract_rish_features, hl, hne, exceptBind_error]
  · intro lmax' hpar hpar2 hne heq
    have heq' : orderStart (lmax' / 2 + 1) = orderStart (h.lmax / 2 + 1) := heq
    have := orderStart_strictMono.injective heq'
    exact hne (by omega)

/-- Witness for C4: an unfit harmonizer is rejected, and a fitted
harmonizer with `lmax = 0` rejects a target whose volume count is not 1. -/
theorem rish_harmonizer_guards_witness :
    (RISHHarmonizer.harmonize (ι := Unit)
        ⟨0, 3, (1 / 2, 2), 4, none⟩ [fun _ => (2 : ℚ)] none id =
      .error "Must call create_template() first") ∧
    (RISHHarmonizer.harmonize (ι := Unit)
        ⟨0, 3, (1 / 2, 2), 4, some []⟩ [] none id =
      .error "Invalid SH image: volume count does not match lmax") :=
  ⟨(rish_harmonizer_guards ⟨0, 3, (1 / 2, 2), 4, none⟩ [fun _ => (2 : ℚ)] none id).1 rfl,
   (rish_harmonizer_guards ⟨0, 3, (1 / 2, 2), 4, some []⟩ [] none id).2.1 [] rfl
     (by decide) (by decide)⟩

theorem snd_mem_of_enumFrom {α : Type} :
    ∀ (l : List α) (n : Nat) (p : Nat × α), p ∈ l.enumFrom n → p.2 ∈ l := by
  intro l
  induction l with
  | nil => intro n p hp; simp [List.enumFrom] at hp
  | cons a t ih =>
    intro n p hp
    rcases List.mem_cons.mp hp with rfl | hp'
    · exact List.mem_cons_self a t
    · exact List.mem_cons_of_mem a (ih (n + 1) p hp')

theorem map_fst_pairs {α β : Type} (f : α → β) (l : List α) :
    (l.map (fun x => (x, f x))).map Prod.fst = l := by
  rw [List.map_map]
  simp [Function.comp_def]

theorem extract_rish_features_ok (sh_image : SHImage ι) (lmax : Nat)
    (mask : Option (ι → Bool)) (hl : lmax % 2 = 0)
    (hlen : sh_image.length = n_volumes lmax) :
    extract_rish_features sh_image lmax mask = .ok (rishImage sh_image lmax mask) := by
  simp [extract_rish_features, hl, hlen]

/-- The harmonizer used in the concrete C5 scenarios. -/
def c5Harmonizer : RISHHarmonizer Unit := ⟨0, 3, (1 / 2, 2), 4, none⟩

/-- The harmonizer state produced by a successful `create_template` run:
`reference_rish` holds, for each order of the first subject, the mean RISH
image across the subject list. -/
def builtTemplate {ι : Type} (h : RISHHarmonizer ι)
    (rish_list : List (List (Nat × Volume ι))) (r0 : List (Nat × Volume ι)) :
    RISHHarmonizer ι :=
  { h with reference_rish := some ((r0.map Prod.fst).map (fun l =>
      (l, meanImages (rish_list.map (fun r => dictGet r l))))) }

/-- C5 counterexample: `create_template` on a single reference subject
(`n_ref = 1 < 2`) succeeds instead of failing with an InsufficientSubjects
error, refuting the claim that template creation fails whenever
`n_ref < 2`. -/
theorem create_template_single_subject_succeeds :
    (c5Harmonizer.create_template [[fun _ => (2 : ℚ)]] none).isOk = true := rfl

/-- C5 amended: `RISHHarmonizer.create_template` performs no
minimum-subject-count check.  For every nonempty list of valid reference SH
images (any `n_ref ≥ 1`, including a single subject) it succeeds and stores
one averaged RISH template per even order `l ≤ lmax`; for an empty list it
fails with an IndexError (from `rish_list[0]`), not with an
InsufficientSubjects error. -/
theorem create_template_no_subject_minimum {ι : Type} (h : RISHHarmonizer ι)
    (refs : List (SHImage ι)) (hl : h.lmax % 2 = 0)
    (hlen : ∀ r ∈ refs, r.length = n_volumes h.lmax) :
    (refs ≠ [] → ∃ h', h.create_template refs none = .ok h' ∧
      ∃ d, h'.reference_rish = some d ∧ d.map Prod.fst = evenOrders h.lmax) ∧
    h.create_template ([] : List (SHImage ι)) none =
      .error "IndexError: list index out of range" := by
  constructor
  · intro hne
    have hstep : ∀ p ∈ refs.enum, (do
        let mask ← maskAt (ι := ι) none p.1
        extract_rish_features p.2 h.lmax mask) = .ok (rishImage p.2 h.lmax none) := by
      intro p hp
      have hmem : p.2 ∈ refs := snd_mem_of_enumFrom refs 0 p hp
      have := extract_rish_features_ok p.2 h.lmax (none : Option (ι → Bool)) hl
        (hlen p.2 hmem)
      simpa [maskAt, exceptBind_ok] using this
    have hmapM := mapM_ok_of_forall (g := fun p => rishImage p.2 h.lmax none)
      refs.enum hstep
    rcases refs with _ | ⟨a, t⟩
    · exact absurd rfl hne
    · refine ⟨builtTemplate h ((a :: t).enum.map (fun p => rishImage p.2 h.lmax none))
          (rishImage a h.lmax none), ?_, ?_⟩
      · simp only [RISHHarmonizer.create_template, hmapM, exceptBind_ok]
        rfl
      · refine ⟨_, rfl, ?_⟩
        have horders : (rishImage a h.lmax none).map Prod.fst = evenOrders h.lmax := by
          unfold rishImage
          exact map_fst_pairs _ _
        rw [map_fst_pairs, horders]
  · rfl

/-- Witness for C5 amended, at two single-voxel reference subjects with
`lmax = 0`. -/
theorem create_template_no_subject_minimum_witness :
    (c5Harmonizer.create_template [[fun _ => (2 : ℚ)], [fun _ => (3 : ℚ)]] none).isOk
      = true := by
  obtain ⟨h', hok, -⟩ := (create_template_no_subject_minimum c5Harmonizer
    [[fun _ => (2 : ℚ)], [fun _ => (3 : ℚ)]] rfl
    (by
      intro r hr
      rcases List.mem_cons.mp hr with rfl | hr'
      · rfl
      · rcases List.mem_cons.mp hr' with rfl | hr''
        · rfl
        · simp at hr'')).1 (by simp)
  rw [hok]
  rfl

/-! ### CLI manifest validation (`src/cli/main.py`) -/

/-- The image-path column names accepted by `cmd_site_effect`
(`src/cli/main.py`, line 926), tried in order. -/
def siteEffectImageColumns : List String := ["image_path", "image", "path", "fa_path", "fa"]

/-- The header validation of `cmd_site_effect` (`src/cli/main.py`, lines
918-932): require `subject` and `site` columns, then pick the first present
image-path column from `siteEffectImageColumns`; error out when none is
present. -/
def validate_site_effect_manifest (fieldnames : List String) : Except String String :=
  if !(fieldnames.contains "subject") || !(fieldnames.contains "site") then
    .error "CSV must have subject and site columns"
  else
    match siteEffectImageColumns.find? (fun col => fieldnames.contains col) with
    | some col => .ok col
    | none =>
      .error "CSV must have an image path column (image_path, image, path, fa_path, or fa)"

/-- The header validation of `cmd_rish_glm` (`src/cli/main.py`, lines
785-793): each of `subject`, `site` and `fod_path` must be present
verbatim; the loop errors out at the first missing one. -/
def validate_rish_glm_manifest (fieldnames : List String) : Except String Unit :=
  match ["subject", "site", "fod_path"].find? (fun col => !(fieldnames.contains col)) with
  | some col => .error ("manifest must have " ++ col ++ " column")
  | none => .ok ()

/-- C7 counterexample: a manifest whose only image-path column is
`fod_path` (with `subject` and `site` present) is rejected by the
site-effect manifest reader, refuting the claim that `fod_path` is among
its accepted image-path column names. -/
theorem site_manifest_fod_path_rejected :
    validate_site_effect_manifest ["subject", "site", "fod_path"] =
      .error "CSV must have an image path column (image_path, image, path, fa_path, or fa)" :=
  rfl

/-- C7 amended: the site-effect manifest reader accepts a CSV exactly when
it has `subject` and `site` columns and at least one image-path column from
{image_path, image, path, fa_path, fa} — `fod_path` is not among them —
while the separate rish-glm manifest reader requires exactly the columns
`subject`, `site` and `fod_path`. -/
theorem manifest_column_validation (fieldnames : List String) :
    ((validate_site_effect_manifest fieldnames).isOk = true ↔
      ("subject" ∈ fieldnames ∧ "site" ∈ fieldnames ∧
        ∃ c ∈ siteEffectImageColumns, c ∈ fieldnames)) ∧
    ((validate_rish_glm_manifest fieldnames).isOk = true ↔
      ("subject" ∈ fieldnames ∧ "site" ∈ fieldnames ∧ "fod_path" ∈ fieldnames)) := by
  constructor
  · unfold validate_site_effect_manifest
    by_cases h1 : "subject" ∈ fieldnames
    · by_cases h2 : "site" ∈ fieldnames
      · rw [if_neg (by simp [List.elem_iff, h1, h2])]
        rcases hfind : siteEffectImageColumns.find? (fun col => fieldnames.contains col)
          with - | col
        · rw [List.find?_eq_none] at hfind
          simp only [Except.isOk]
          constructor
          · intro h; exact nomatch h
          · rintro ⟨-, -, c, hc, hcmem⟩
            exact absurd (by simpa [List.elem_iff] using hcmem) (hfind c hc)
        · have hmem := List.mem_of_find?_eq_some hfind
          have hcol : fieldnames.contains col = true := List.find?_some hfind
          simp only [Except.isOk]
          exact ⟨fun _ => ⟨h1, h2, col, hmem, List.elem_iff.mp hcol⟩, fun _ => rfl⟩
      · rw [if_pos (by simp [List.elem_iff, h2])]
        simp only [Except.isOk]
        exact ⟨fun h => (nomatch h), fun h => absurd h.2.1 h2⟩
    · rw [if_pos (by simp [List.elem_iff, h1])]
      simp only [Except.isOk]
      exact ⟨fun h => (nomatch h), fun h => absurd h.1 h1⟩
  · unfold validate_rish_glm_manifest
    by_cases h1 : "subject" ∈ fieldnames
    · by_cases h2 : "site" ∈ fieldnames
      · by_cases h3 : "fod_path" ∈ fieldnames
        · rw [show (["subject", "site", "fod_path"].find?
              (fun col => !(fieldnames.contains col))) = none from by
            rw [List.find?_eq_none]
            intro x hx
            rcases List.mem_cons.mp hx with rfl | hx'
            · simp [List.elem_iff, h1]
            · rcases List.mem_cons.mp hx' with rfl | hx''
              · simp [List.elem_iff, h2]
              · rcases List.mem_cons.mp hx'' with rfl | hx'''
                · simp [List.elem_iff, h3]
                · simp at hx''']
          exact ⟨fun _ => ⟨h1, h2, h3⟩, fun _ => rfl⟩
        · rw [show (["subject", "site", "fod_path"].find?
              (fun col => !(fieldnames.contains col))) = some "fod_path" from by
            rw [List.find?_cons_of_neg _ (by simp [List.elem_iff, h1]),
              List.find?_cons_of_neg _ (by simp [List.elem_iff, h2]),
              List.find?_cons_of_pos _ (by simp [List.elem_iff, h3])]]
          simp only [Except.isOk]
          exact ⟨fun h => (nomatch h), fun h => absurd h.2.2 h3⟩
      · rw [List.find?_cons_of_neg _ (by simp [List.elem_iff, h1]),
          List.find?_cons_of_pos _ (by simp [List.elem_iff, h2])]
        simp only [Except.isOk]
        exact ⟨fun h => (nomatch h), fun h => absurd h.2.1 h2⟩
    · rw [List.find?_cons_of_pos _ (by simp [List.elem_iff, h1])]
      simp only [Except.isOk]
      exact ⟨fun h => (nomatch h), fun h => absurd h.1 h1⟩

/-! ### Sex covariate encoding (`src/cli/main.py`, lines 944-952) -/

/-- Python `str.upper()` on the ASCII values used by the sex encoding,
modelled as the per-character uppercase map. -/
def pyUpper (s : String) : String := ⟨s.data.map Char.toUpper⟩

/-- The sex covariate encoding of `cmd_site_effect`
(`src/cli/main.py`, line 949):
`val = 1.0 if val.upper() in ["M", "MALE", "1"] else 0.0`. -/
def encode_sex_value (val : String) : ℚ :=
  if (["M", "MALE", "1"] : List String).contains (pyUpper val) then 1 else 0

/-- C8: every sex value drawn case-insensitively from
{M, F, Male, Female, 1, 0} is encoded to 1.0 when it is a case variant of
M, Male or 1, and to 0.0 when it is a case variant of F, Female or 0. -/
theorem encode_sex_value_spec (s : String) :
    ((pyUpper s = "M" ∨ pyUpper s = "MALE" ∨ pyUpper s = "1") →
      encode_sex_value s = 1) ∧
    ((pyUpper s = "F" ∨ pyUpper s = "FEMALE" ∨ pyUpper s = "0") →
      encode_sex_value s = 0) := by
  constructor
  · intro h
    unfold encode_sex_value
    rcases h with h | h | h <;> rw [h] <;> rfl
  · intro h
    unfold encode_sex_value
    rcases h with h | h | h <;> rw [h] <;> rfl

/-- Witness for C8: `Male` encodes to 1.0 and `f` encodes to 0.0. -/
theorem encode_sex_value_spec_witness :
    encode_sex_value "Male" = 1 ∧ encode_sex_value "f" = 0 :=
  ⟨(encode_sex_value_spec "Male").1 (Or.inr (Or.inl (by decide))),
   (encode_sex_value_spec "f").2 (Or.inl (by decide))⟩

/-! ### BIDS dataset processing (`src/core/bids_workflow.py`, lines 121-202) -/

/-- A discovered DWI entry, as produced by `find_bids_dwi`: the fields of
the entry that `process_bids_dataset` itself reads (`subject`, optional
`session`; the image paths are consumed opaquely by the per-subject
processing). -/
structure BidsEntry where
  subject : String
  session : Option String
deriving Repr, DecidableEq

/-- The per-entry record appended to `results`: either the successful
output dictionary of `process_bids_subject`, or the error record built in
the `except` branch. -/
inductive SubjectResult (α : Type) where
  | success (out : α)
  | failure (subject : String) (session : Option String) (err : String)
deriving Repr, DecidableEq

/-- The `status` field of a result record. -/
def SubjectResult.status {α : Type} : SubjectResult α → String
  | .success _ => "success"
  | .failure _ _ _ => "error"

/-- The `try`/`except Exception` body of the subject loop
(`src/core/bids_workflow.py`, lines 174-191): a raising
`process_bids_subject` call (modelled as the `Except`-valued `proc`) is
turned into an error record carrying the entry's subject and session. -/
def processEntry {α : Type} (proc : BidsEntry → Except String α) (e : BidsEntry) :
    SubjectResult α :=
  match proc e with
  | .ok r => .success r
  | .error msg => .failure e.subject e.session msg

/-- The optional subject filtering (`src/core/bids_workflow.py`, lines
164-165): `if subjects:` is Python truthiness, so both `None` and an empty
list leave the entries unfiltered. -/
def filterSubjects (entries : List BidsEntry) (subjects : Option (List String)) :
    List BidsEntry :=
  match subjects with
  | none => entries
  | some [] => entries
  | some subs => entries.filter (fun e => subs.contains e.subject)

/-- `process_bids_dataset` (`src/core/bids_workflow.py`, lines 121-202),
with discovery (`find_bids_dwi`) abstracted into the `entries` argument and
the per-subject work abstracted into `proc`: filter the entries, then
process each one inside `try`/`except`, collecting one tagged result per
entry. -/
def process_bids_dataset {α : Type} (proc : BidsEntry → Except String α)
    (entries : List BidsEntry) (subjects : Option (List String)) :
    List (SubjectResult α) :=
  (filterSubjects entries subjects).map (processEntry proc)

/-- C9: `process_bids_dataset` returns exactly one result per discovered
(and subject-filtered) entry; every result is tagged `success` or `error`;
and the result at each position depends only on the processing of its own
entry — two processing functions agreeing on the entry at position `i`
yield the same `i`-th result, so an exception raised for one subject never
prevents or alters the processing of the others. -/
theorem process_bids_dataset_isolates {α : Type}
    (proc proc₂ : BidsEntry → Except String α) (entries : List BidsEntry)
    (subjects : Option (List String)) :
    (process_bids_dataset proc entries subjects).length =
      (filterSubjects entries subjects).length ∧
    (∀ r ∈ process_bids_dataset proc entries subjects,
      r.status = "success" ∨ r.status = "error") ∧
    (∀ i : Nat, (∀ e, (filterSubjects entries subjects)[i]? = some e → proc e = proc₂ e) →
      (process_bids_dataset proc entries subjects)[i]? =
        (process_bids_dataset proc₂ entries subjects)[i]?) := by
  refine ⟨List.length_map _ _, ?_, ?_⟩
  · intro r hr
    rcases List.mem_map.mp hr with ⟨e, -, rfl⟩
    unfold processEntry
    cases proc e
    · right; rfl
    · left; rfl
  · intro i hagree
    unfold process_bids_dataset
    rw [List.getElem?_map, List.getElem?_map]
    rcases he : (filterSubjects entries subjects)[i]? with - | e
    · rfl
    · simp only [Option.map_some']
      unfold processEntry
      rw [hagree e he]

/-- Witness for C9: two processing functions that agree on the single
entry (both raising) produce the same first result. -/
theorem process_bids_dataset_isolates_witness :
    (process_bids_dataset (α := Unit)
        (fun e => if e.subject == "sub-001" then .error "boom" else .ok ())
        [⟨"sub-001", none⟩] none)[0]? =
      (process_bids_dataset (α := Unit) (fun _ => .error "boom")
        [⟨"sub-001", none⟩] none)[0]? :=
  (process_bids_dataset_isolates
      (fun e => if e.subject == "sub-001" then .error "boom" else .ok ())
      (fun _ => .error "boom") [⟨"sub-001", none⟩] none).2.2 0
    (fun e he => by
      have : (⟨"sub-001", none⟩ : BidsEntry) = e := Option.some.inj he
      subst this
      rfl)

/-! ### Configuration persistence (`src/io/config_io.py`) -/

/-- A Python tuple value, as stored in the `clip_range` field of
`HarmonizationConfig` (distinguished from the YAML list it is serialized
as). -/
structure PyTuple (α : Type) where
  elems : List α
deriving Repr, DecidableEq

/-- The `HarmonizationConfig` dataclass (`src/io/config_io.py`, lines
13-30).  Numeric fields are modelled exactly over `Int`/`ℚ`. -/
structure HarmonizationConfig where
  lmax : Int
  mask_threshold : ℚ
  smoothing_fwhm : ℚ
  clip_range : PyTuple ℚ
  n_threads : Int
  save_intermediate : Bool
  compress_output : Bool
deriving Repr, DecidableEq

/-- The `RegistrationConfig` dataclass (`src/io/config_io.py`, lines
33-40). -/
structure RegistrationConfig where
  method : String
  template : String
  linear_type : String
  nonlinear : Bool
deriving Repr, DecidableEq

/-- The `QCConfig` dataclass (`src/io/config_io.py`, lines 43-51). -/
structure QCConfig where
  generate_report : Bool
  metrics : List String
  save_figures : Bool
deriving Repr, DecidableEq

/-- The `PipelineConfig` dataclass (`src/io/config_io.py`, lines 54-60). -/
structure PipelineConfig where
  harmonization : HarmonizationConfig
  registration : RegistrationConfig
  qc : QCConfig
deriving Repr, DecidableEq

/-- The harmonization section of the YAML document written by
`save_config`: `asdict` of the dataclass with `clip_range` converted from a
tuple to a list (`src/io/config_io.py`, line 125).  YAML serialization of
the scalar fields is exact and is modelled structurally. -/
structure SavedHarmonizationData where
  lmax : Int
  mask_threshold : ℚ
  smoothing_fwhm : ℚ
  clip_range : List ℚ
  n_threads : Int
  save_intermediate : Bool
  compress_output : Bool
deriving Repr, DecidableEq

/-- The whole YAML document written by `save_config`
(`src/io/config_io.py`, lines 117-126). -/
structure SavedConfigData where
  harmonization : SavedHarmonizationData
  registration : RegistrationConfig
  qc : QCConfig
deriving Repr, DecidableEq

/-- `save_config` (`src/io/config_io.py`, lines 103-128): convert the
dataclasses to dictionaries and the `clip_range` tuple to a list, then dump
to YAML (modelled as the structured document). -/
def save_config (config : PipelineConfig) : SavedConfigData :=
  { harmonization :=
      { lmax := config.harmonization.lmax
        mask_threshold := config.harmonization.mask_threshold
        smoothing_fwhm := config.harmonization.smoothing_fwhm
        clip_range := config.harmonization.clip_range.elems
        n_threads := config.harmonization.n_threads
        save_intermediate := config.harmonization.save_intermediate
        compress_output := config.harmonization.compress_output }
    registration := config.registration
    qc := config.qc }

/-- `load_config` (`src/io/config_io.py`, lines 63-100) applied to a file
written by `save_config` (so every section and field is present): parse the
sections back into the dataclasses, converting the `clip_range` YAML list
back to a tuple (lines 91-92). -/
def load_config (data : SavedConfigData) : PipelineConfig :=
  { harmonization :=
      { lmax := data.harmonization.lmax
        mask_threshold := data.harmonization.mask_threshold
        smoothing_fwhm := data.harmonization.smoothing_fwhm
        clip_range := ⟨data.harmonization.clip_range⟩
        n_threads := data.harmonization.n_threads
        save_intermediate := data.harmonization.save_intermediate
        compress_output := data.harmonization.compress_output }
    registration := data.registration
    qc := data.qc }

/-- C10: configuration persistence round-trips — for every
`PipelineConfig` value, `load_config` applied to the document written by
`save_config` returns the original configuration, including restoring
`clip_range` as a tuple after its serialization as a YAML list. -/
theorem config_round_trip (config : PipelineConfig) :
    load_config (save_config config) = config := rfl

end MrtrixRish
